import Mathlib

/-!
Verification of the URLtracker server core (src/server.js).

The server is a URL shortener with visit analytics backed by Redis.  This
development gives a shallow embedding of its core:

* `detectDeviceType` — the user-agent classifier (server.js lines 34-38);
* the stats date-range filter and newest-first sort of the
  `GET /api/links/:id/stats` handler (lines 95-133);
* the link store (Redis hashes `link:{id}`, lists `visits:{id}` and the set
  `links`) together with the handlers `POST /api/links` (lines 41-72),
  `GET /api/links` (lines 74-92) and the redirect handler `GET /:id`
  (lines 135-156).

Timestamps are modelled as integer milliseconds since the Unix epoch: every
timestamp the server manipulates is an ISO-8601 UTC string that JavaScript's
`Date` converts to such an integer, and all comparisons in the source happen
on those integers.  JavaScript's stable `Array.prototype.sort` is modelled by
a stable insertion sort.  External collaborators (the WHATWG URL parser,
`JSON.parse`) are modelled as abstract function parameters where the code's
behaviour does not depend on their internals.
-/

namespace URLTracker

/-! ### Device classifier (src/server.js lines 34-38) -/

/-- Character-level model of `ua.toLowerCase()` (line 35); ASCII case
folding, which is all the classifier's lowercase token tests depend on. -/
def lowerChars (s : String) : List Char := s.toList.map Char.toLower

/-- Decides whether `tok` is a prefix of `hay`. -/
def isPrefixC : List Char → List Char → Bool
  | [], _ => true
  | _ :: _, [] => false
  | t :: ts, h :: hs => t == h && isPrefixC ts hs

/-- Decides whether `tok` occurs as a contiguous substring of `hay`. -/
def isInfixC (tok : List Char) : List Char → Bool
  | [] => isPrefixC tok []
  | h :: hs => isPrefixC tok (h :: hs) || isInfixC tok hs

/-- Model of the test `/mobile|android|iphone|ipad|ipod/.test(value)`
(line 36): the regular expression is a plain alternation of five literal
tokens, so it matches exactly when one of them occurs as a substring. -/
def isMobileUA (value : List Char) : Bool :=
  isInfixC "mobile".toList value || isInfixC "android".toList value ||
  isInfixC "iphone".toList value || isInfixC "ipad".toList value ||
  isInfixC "ipod".toList value

/-- Model of `detectDeviceType` (lines 34-38): lowercase the user agent and
return `"mobile"` when the token alternation matches, `"desktop"`
otherwise. -/
def detectDeviceType (ua : String) : String :=
  let value := lowerChars ua
  if isMobileUA value then "mobile" else "desktop"

/-! ### Calendar dates

The stats query parameters `start` and `end` arrive as calendar-date strings
`YYYY-MM-DD`; `new Date(string)` (lines 102-103) parses such a string as the
UTC start of that day.  `dateToMs` computes that instant in milliseconds. -/

/-- Gregorian leap-year rule. -/
def isLeapYear (y : Nat) : Bool := y % 4 == 0 && (y % 100 != 0 || y % 400 == 0)

/-- Days in the Gregorian year `y`. -/
def daysInYear (y : Nat) : Nat := if isLeapYear y then 366 else 365

/-- Days in month `m` (1-12) of year `y`. -/
def daysInMonth (y m : Nat) : Nat :=
  if m == 2 then (if isLeapYear y then 29 else 28)
  else if m == 4 || m == 6 || m == 9 || m == 11 then 30 else 31

/-- Days from 1970-01-01 to the calendar date `y-m-d` (UTC). -/
def daysSinceEpoch (y m d : Nat) : Nat :=
  ((List.range (y - 1970)).foldl (fun acc i => acc + daysInYear (1970 + i)) 0) +
  ((List.range (m - 1)).foldl (fun acc i => acc + daysInMonth y (1 + i)) 0) +
  (d - 1)

/-- Milliseconds since the epoch of the UTC start of day of the calendar date
`y-m-d`; the value of `new Date("YYYY-MM-DD").getTime()`. -/
def dateToMs (y m d : Nat) : Int := ((daysSinceEpoch y m d) : Int) * 86400000

/-! ### Visits and the stats date filter (src/server.js lines 104-121) -/

/-- A visit record as built by the redirect handler (lines 144-148):
`{timestamp: new Date().toISOString(), userAgent, deviceType}`, with the
timestamp modelled in epoch milliseconds. -/
structure Visit where
  timestamp : Int
  userAgent : String
  deviceType : String
deriving DecidableEq, Repr

/-- The constant `24 * 60 * 60 * 1000` from line 119. -/
def dayMs : Int := 24 * 60 * 60 * 1000

/-- Model of the date-range predicate of the stats handler (lines 117-121):
a visit is dropped when `start` is present and `ts < start`, or when `end`
is present and `ts > end + 24h`; otherwise it is kept. -/
def keepVisit (s? e? : Option Int) (v : Visit) : Bool :=
  (match s? with
   | none => true
   | some s => !(decide (v.timestamp < s))) &&
  (match e? with
   | none => true
   | some e => !(decide (v.timestamp > e + dayMs)))

/-- The `.filter((visit) => ...)` stage of the stats handler (lines 116-121). -/
def statsFilter (s? e? : Option Int) (vs : List Visit) : List Visit :=
  vs.filter (keepVisit s? e?)

/-! ### Stable sorting

`Array.prototype.sort(cmp)` is stable (ECMAScript 2019 and later) and, for a
numeric comparator, orders the array so that `cmp x y ≤ 0` holds for
consecutive elements.  `stableSort le` models it for `le x y := cmp x y ≤ 0`:
a stable insertion sort that processes the array left to right and places
each element after every earlier element it ties with. -/

/-- Insert `a` after every element `b` with `le b a` (ties keep the earlier
element first). -/
def insertLe {α : Type} (le : α → α → Bool) (a : α) : List α → List α
  | [] => [a]
  | b :: l => if le b a then b :: insertLe le a l else a :: b :: l

/-- Stable sort by the total Boolean preorder `le`. -/
def stableSort {α : Type} (le : α → α → Bool) (l : List α) : List α :=
  l.foldl (fun acc a => insertLe le a acc) []

/-- Descending comparison by an integer key: the comparator
`(a, b) => key(b) - key(a)` of lines 91 and 122 sorts so that consecutive
elements satisfy `key b ≤ key a`. -/
def keyedDesc {α : Type} (k : α → Int) (x y : α) : Bool := decide (k y ≤ k x)

/-- Comparator of line 122: `(a, b) => new Date(b.timestamp) - new Date(a.timestamp)`. -/
def byTsDesc : Visit → Visit → Bool := keyedDesc Visit.timestamp

/-- The visit list returned by the stats handler for a well-formed stored
log: date-range filter (lines 116-121) followed by the newest-first stable
sort (line 122). -/
def statsVisits (s? e? : Option Int) (vs : List Visit) : List Visit :=
  stableSort byTsDesc (statsFilter s? e? vs)

/-! ### Lemmas about the substring search -/

theorem isPrefixC_iff (tok : List Char) :
    ∀ hay, isPrefixC tok hay = true ↔ ∃ suf, hay = tok ++ suf := by
  induction tok with
  | nil =>
    intro hay
    simp [isPrefixC]
  | cons t ts ih =>
    intro hay
    cases hay with
    | nil => simp [isPrefixC]
    | cons h hs =>
      simp only [isPrefixC, Bool.and_eq_true, beq_iff_eq, ih hs]
      constructor
      · rintro ⟨rfl, suf, rfl⟩
        exact ⟨suf, rfl⟩
      · rintro ⟨suf, heq⟩
        injection heq with h1 h2
        exact ⟨h1.symm, suf, h2⟩

theorem isInfixC_iff (tok : List Char) :
    ∀ hay, isInfixC tok hay = true ↔ ∃ pre suf, hay = pre ++ tok ++ suf := by
  intro hay
  induction hay with
  | nil =>
    cases tok with
    | nil => simp [isInfixC, isPrefixC]
    | cons t ts =>
      simp only [isInfixC, isPrefixC]
      constructor
      · intro h
        exact absurd h (by simp)
      · rintro ⟨pre, suf, heq⟩
        exact absurd heq.symm (by simp)
  | cons h hs ih =>
    simp only [isInfixC, Bool.or_eq_true, isPrefixC_iff, ih]
    constructor
    · rintro (⟨suf, heq⟩ | ⟨pre, suf, rfl⟩)
      · exact ⟨[], suf, by simpa using heq⟩
      · exact ⟨h :: pre, suf, rfl⟩
    · rintro ⟨pre, suf, heq⟩
      cases pre with
      | nil =>
        left
        exact ⟨suf, by simpa using heq⟩
      | cons p ps =>
        right
        injection heq with h1 h2
        exact ⟨ps, suf, h2⟩

theorem isMobileUA_iff (value : List Char) :
    isMobileUA value = true ↔
      ∃ tok ∈ (["mobile", "android", "iphone", "ipad", "ipod"] : List String),
        ∃ pre suf, value = pre ++ tok.toList ++ suf := by
  simp only [isMobileUA, Bool.or_eq_true, isInfixC_iff]
  constructor
  · rintro ((((⟨pre, suf, h⟩ | ⟨pre, suf, h⟩) | ⟨pre, suf, h⟩) |
      ⟨pre, suf, h⟩) | ⟨pre, suf, h⟩)
    · exact ⟨"mobile", by simp, pre, suf, h⟩
    · exact ⟨"android", by simp, pre, suf, h⟩
    · exact ⟨"iphone", by simp, pre, suf, h⟩
    · exact ⟨"ipad", by simp, pre, suf, h⟩
    · exact ⟨"ipod", by simp, pre, suf, h⟩
  · rintro ⟨tok, htok, pre, suf, h⟩
    simp only [List.mem_cons, List.not_mem_nil, or_false] at htok
    rcases htok with rfl | rfl | rfl | rfl | rfl
    · exact Or.inl (Or.inl (Or.inl (Or.inl ⟨pre, suf, h⟩)))
    · exact Or.inl (Or.inl (Or.inl (Or.inr ⟨pre, suf, h⟩)))
    · exact Or.inl (Or.inl (Or.inr ⟨pre, suf, h⟩))
    · exact Or.inl (Or.inr ⟨pre, suf, h⟩)
    · exact Or.inr ⟨pre, suf, h⟩

/-! ### Lemmas about the stable sort -/

theorem insertLe_perm {α : Type} (le : α → α → Bool) (a : α) (l : List α) :
    (insertLe le a l).Perm (a :: l) := by
  induction l with
  | nil => simp [insertLe]
  | cons b l ih =>
    simp only [insertLe]
    cases hle : le b a
    · simp
    · simp only [if_pos rfl]
      exact (ih.cons b).trans (List.Perm.swap a b l)

theorem insertLe_mem {α : Type} (le : α → α → Bool) (a x : α) (l : List α) :
    x ∈ insertLe le a l ↔ x = a ∨ x ∈ l := by
  rw [(insertLe_perm le a l).mem_iff]
  simp

theorem insertLe_pairwise {α : Type} (le : α → α → Bool)
    (htot : ∀ x y, le x y = true ∨ le y x = true)
    (htrans : ∀ x y z, le x y = true → le y z = true → le x z = true)
    (a : α) (l : List α) (hl : List.Pairwise (fun x y => le x y = true) l) :
    List.Pairwise (fun x y => le x y = true) (insertLe le a l) := by
  induction l with
  | nil => simp [insertLe]
  | cons b l ih =>
    rcases List.pairwise_cons.mp hl with ⟨hb, hl'⟩
    simp only [insertLe]
    cases hle : le b a
    · have hab : le a b = true := by
        rcases htot a b with h | h
        · exact h
        · rw [h] at hle; exact absurd hle (by simp)
      refine List.pairwise_cons.mpr ⟨?_, hl⟩
      intro x hx
      rcases List.mem_cons.mp hx with rfl | hx
      · exact hab
      · exact htrans a b x hab (hb x hx)
    · simp only [if_pos rfl]
      refine List.pairwise_cons.mpr ⟨?_, ih hl'⟩
      intro x hx
      rcases (insertLe_mem le a x l).mp hx with rfl | hx
      · exact hle
      · exact hb x hx

theorem foldl_insertLe_perm {α : Type} (le : α → α → Bool) :
    ∀ (l acc : List α),
      (List.foldl (fun acc a => insertLe le a acc) acc l).Perm (acc ++ l) := by
  intro l
  induction l with
  | nil => intro acc; simp
  | cons a l ih =>
    intro acc
    have h1 := ih (insertLe le a acc)
    have h2 : (insertLe le a acc ++ l).Perm (acc ++ a :: l) :=
      ((insertLe_perm le a acc).append_right l).trans List.perm_middle.symm
    exact h1.trans h2

theorem stableSort_perm {α : Type} (le : α → α → Bool) (l : List α) :
    (stableSort le l).Perm l := by
  simpa [stableSort] using foldl_insertLe_perm le l []

theorem stableSort_pairwise {α : Type} (le : α → α → Bool)
    (htot : ∀ x y, le x y = true ∨ le y x = true)
    (htrans : ∀ x y z, le x y = true → le y z = true → le x z = true)
    (l : List α) :
    List.Pairwise (fun x y => le x y = true) (stableSort le l) := by
  suffices h : ∀ (l acc : List α), List.Pairwise (fun x y => le x y = true) acc →
      List.Pairwise (fun x y => le x y = true)
        (List.foldl (fun acc a => insertLe le a acc) acc l) from
    h l [] (by simp)
  intro l
  induction l with
  | nil => intro acc h; simpa using h
  | cons a l ih =>
    intro acc h
    exact ih (insertLe le a acc) (insertLe_pairwise le htot htrans a acc h)

theorem keyedDesc_total {α : Type} (k : α → Int) :
    ∀ x y, keyedDesc k x y = true ∨ keyedDesc k y x = true := by
  intro x y
  simp only [keyedDesc, decide_eq_true_eq]
  exact (le_total (k y) (k x)).imp id id

theorem keyedDesc_trans {α : Type} (k : α → Int) :
    ∀ x y z, keyedDesc k x y = true → keyedDesc k y z = true →
      keyedDesc k x z = true := by
  intro x y z hxy hyz
  simp only [keyedDesc, decide_eq_true_eq] at *
  exact le_trans hyz hxy

theorem insertLe_filter_key {α : Type} (k : α → Int) (t : Int) (a : α)
    (l : List α)
    (hl : List.Pairwise (fun x y => keyedDesc k x y = true) l) :
    (insertLe (keyedDesc k) a l).filter (fun x => k x == t) =
      if k a == t then (l.filter (fun x => k x == t)) ++ [a]
      else l.filter (fun x => k x == t) := by
  induction l with
  | nil =>
    cases hat : (k a == t) <;> simp [insertLe, List.filter, hat]
  | cons b l ih =>
    rcases List.pairwise_cons.mp hl with ⟨hb, hl'⟩
    cases hle : keyedDesc k b a
    · have hred : insertLe (keyedDesc k) a (b :: l) = a :: b :: l := by
        simp [insertLe, hle]
      have hba : k b < k a := by
        have h1 : ¬ (k a ≤ k b) := by simpa [keyedDesc] using hle
        exact not_le.mp h1
      cases hat : (k a == t)
      · simp [hred, List.filter_cons, hat]
      · have hat' : k a = t := beq_iff_eq.mp hat
        have hnil : List.filter (fun x => k x == t) (b :: l) = [] := by
          rw [List.filter_eq_nil_iff]
          intro x hx
          rcases List.mem_cons.mp hx with rfl | hx
          · simp only [beq_iff_eq]
            omega
          · have hxk : k x ≤ k b := by
              simpa [keyedDesc] using hb x hx
            simp only [beq_iff_eq]
            omega
        simp [hred, List.filter_cons, hat, hnil]
    · have hred : insertLe (keyedDesc k) a (b :: l) =
          b :: insertLe (keyedDesc k) a l := by
        simp [insertLe, hle]
      rw [hred, List.filter_cons, ih hl', List.filter_cons]
      cases hat : (k a == t) <;> cases hbt : (k b == t) <;> simp [hat, hbt]

theorem stableSort_filter_key {α : Type} (k : α → Int) (t : Int) (l : List α) :
    (stableSort (keyedDesc k) l).filter (fun x => k x == t) =
      l.filter (fun x => k x == t) := by
  suffices h : ∀ (l acc : List α),
      List.Pairwise (fun x y => keyedDesc k x y = true) acc →
      (List.foldl (fun acc a => insertLe (keyedDesc k) a acc) acc l).filter
          (fun x => k x == t) =
        acc.filter (fun x => k x == t) ++ l.filter (fun x => k x == t) by
    simpa [stableSort] using h l [] (by simp)
  intro l
  induction l with
  | nil => intro acc h; simp
  | cons a l ih =>
    intro acc hacc
    have step : List.foldl (fun acc a => insertLe (keyedDesc k) a acc) acc
        (a :: l) =
        List.foldl (fun acc a => insertLe (keyedDesc k) a acc)
          (insertLe (keyedDesc k) a acc) l := rfl
    rw [step, ih (insertLe (keyedDesc k) a acc)
      (insertLe_pairwise (keyedDesc k) (keyedDesc_total k) (keyedDesc_trans k)
        a acc hacc)]
    rw [insertLe_filter_key k t a acc hacc, List.filter_cons]
    cases hat : (k a == t) <;> simp [hat]

/-! ### Claim C6: the device classifier -/

/-- C6: for every userAgent string the classifier returns `"mobile"` iff the
string, matched case-insensitively, contains one of the tokens mobile,
android, iphone, ipad, ipod, and returns `"desktop"` otherwise; the empty
string classifies as desktop and `"MOBILE-X"` as mobile.  Being a total Lean
function of the string alone, the classifier is pure and has no failure
mode. -/
theorem detectDeviceType_spec :
    (∀ ua : String,
      (detectDeviceType ua = "mobile" ↔
        ∃ tok ∈ (["mobile", "android", "iphone", "ipad", "ipod"] : List String),
          ∃ pre suf, lowerChars ua = pre ++ tok.toList ++ suf) ∧
      (detectDeviceType ua = "mobile" ∨ detectDeviceType ua = "desktop")) ∧
    detectDeviceType "" = "desktop" ∧
    detectDeviceType "MOBILE-X" = "mobile" ∧
    detectDeviceType "Mozilla/5.0 (iPhone; CPU iPhone OS 17_0 like Mac OS X)"
      = "mobile" ∧
    detectDeviceType "Mozilla/5.0 (Windows NT 10.0; Win64; x64)" = "desktop" := by
  refine ⟨?_, by decide, by decide, by decide, by decide⟩
  intro ua
  constructor
  · rw [← isMobileUA_iff (lowerChars ua)]
    cases hm : isMobileUA (lowerChars ua) <;> simp [detectDeviceType, hm]
  · cases hm : isMobileUA (lowerChars ua) <;> simp [detectDeviceType, hm]

/-! ### Claim C1: the stats date-range filter -/

/-- The spec's example visit at 2024-01-01T10:00Z. -/
def exVisit1 : Visit := ⟨dateToMs 2024 1 1 + 10 * 60 * 60 * 1000, "ua1", "desktop"⟩

/-- The spec's example visit at 2024-01-05T23:59Z. -/
def exVisit2 : Visit := ⟨dateToMs 2024 1 5 + (23 * 60 + 59) * 60 * 1000, "ua2", "desktop"⟩

/-- The spec's example visit at 2024-01-10T00:01Z. -/
def exVisit3 : Visit := ⟨dateToMs 2024 1 10 + 60 * 1000, "ua3", "desktop"⟩

/-- C1: a visit survives the stats date filter iff it is in the log, is not
earlier than `start` (the UTC start of the start day) when `start` is given,
and is not later than the start of the day after `end` when `end` is given;
both bounds are optional and independent, and omitting both leaves the log
unchanged.  On the spec's example — visits at 2024-01-01T10:00Z,
2024-01-05T23:59Z and 2024-01-10T00:01Z with `start = 2024-01-02` and
`end = 2024-01-05` — exactly the second visit is returned. -/
theorem statsFilter_range_correct :
    (∀ (s? e? : Option Int) (vs : List Visit) (v : Visit),
      v ∈ statsFilter s? e? vs ↔
        v ∈ vs ∧ (∀ s, s? = some s → s ≤ v.timestamp) ∧
          (∀ e, e? = some e → v.timestamp ≤ e + dayMs)) ∧
    (∀ vs : List Visit, statsFilter none none vs = vs) ∧
    statsVisits (some (dateToMs 2024 1 2)) (some (dateToMs 2024 1 5))
        [exVisit1, exVisit2, exVisit3] = [exVisit2] := by
  refine ⟨?_, ?_, by decide⟩
  · intro s? e? vs v
    rw [statsFilter, List.mem_filter]
    cases s? <;> cases e? <;> simp [keepVisit, not_lt]
  · intro vs
    simp [statsFilter, keepVisit]

/-! ### The link store (Redis state and the four handlers) -/

/-- A link record as assembled for clients by the handlers
(lines 64-71, 80-86, 124-130). -/
structure Link where
  id : String
  originalUrl : String
  createdAt : Int
  visitCount : Int
  shortUrl : String
deriving DecidableEq, Repr

/-- The Redis hash stored at key `link:{id}`.  `hid` models the hash's `id`
field, which a well-formed record always carries but an inconsistent one may
lack — every handler guards its `hGetAll` read with `if (!data || !data.id)`
(lines 79, 100, 141). -/
structure LinkHash where
  hid : Option String
  originalUrl : String
  createdAt : Int
  visitCount : Int
  shortUrl : String
deriving DecidableEq, Repr

/-- The Redis state the server uses: the hash at `link:{id}` (`none` when the
key is absent), the list at `visits:{id}` (`lRange` of an absent key yields
the empty list), and the members of the set `links`, recorded here in the
order `sAdd` first added them (insertion order). -/
structure Store where
  hashes : String → Option LinkHash
  visits : String → List Visit
  linksSet : List String

/-- The empty store. -/
def initStore : Store := ⟨fun _ => none, fun _ => [], []⟩

/-- Shared read of the handlers: a usable link exists at `id` when the hash
is present and carries an `id` field; the `Link` view is then built from the
hash's fields (note the handlers echo `data.id`, the field, not the key). -/
def readLink (st : Store) (id : String) : Option Link :=
  match st.hashes id with
  | none => none
  | some h =>
    match h.hid with
    | none => none
    | some hid => some ⟨hid, h.originalUrl, h.createdAt, h.visitCount, h.shortUrl⟩

/-- The visit counter stored for `id`; 0 when no hash exists, matching
`Number(data.visitCount || 0)` and `hIncrBy` counting from 0. -/
def visitCountOf (st : Store) (id : String) : Int :=
  match st.hashes id with
  | none => 0
  | some h => h.visitCount

/-- The persistence step of `POST /api/links` (lines 52-62): `hSet` writes
the full hash at `link:{id}` with `visitCount = 0` and
`shortUrl = BASE_URL/id`, and `sAdd` adds `id` to the `links` set. -/
def createLink (st : Store) (id url : String) (now : Int) (base : String) :
    Store :=
  { hashes := fun k =>
      if k = id then some ⟨some id, url, now, 0, base ++ "/" ++ id⟩
      else st.hashes k,
    visits := st.visits,
    linksSet := if id ∈ st.linksSet then st.linksSet else st.linksSet ++ [id] }

/-- The result of `new URL(url)` as far as the handler inspects it: only the
`protocol` property is read (line 45). -/
structure ParsedUrl where
  protocol : String
deriving DecidableEq, Repr

/-- HTTP outcome of `POST /api/links`: a 400 client error with a message, or
the created link echoed as JSON. -/
inductive CreateResult where
  | clientError (msg : String)
  | created (link : Link)
deriving DecidableEq, Repr

/-- Model of the `POST /api/links` handler (lines 41-72).  `parseUrl` models
the WHATWG `new URL` constructor, `none` standing for a thrown error; `id`
models the fresh `shortid.generate()` value and `now` the creation instant.
A URL that fails to parse answers 400 `Invalid URL provided.`; one whose
protocol is outside `['http:', 'https:']` answers 400
`Only http(s) URLs are allowed.`; both happen before any write.  Otherwise
the link is persisted and echoed back. -/
def postLinks (parseUrl : String → Option ParsedUrl) (st : Store)
    (url id : String) (now : Int) (base : String) : Store × CreateResult :=
  match parseUrl url with
  | none => (st, .clientError "Invalid URL provided.")
  | some p =>
    if p.protocol ∈ (["http:", "https:"] : List String) then
      (createLink st id url now base,
        .created ⟨id, url, now, 0, base ++ "/" ++ id⟩)
    else (st, .clientError "Only http(s) URLs are allowed.")

/-- Model of the redirect handler `GET /:id` (lines 138-156), the core
`ResolveAndRecordVisit` operation.  When the guard finds no usable link the
handler calls `next()` — modelled as result `none` — and performs no write.
Otherwise it increments the hash's `visitCount` field by 1 (`hIncrBy`),
right-pushes the visit record `{timestamp: now, userAgent, deviceType}` onto
`visits:{id}` (`rPush`), and redirects to the `originalUrl` it read. -/
def resolveAndRecordVisit (st : Store) (id ua : String) (now : Int) :
    Store × Option String :=
  match readLink st id with
  | none => (st, none)
  | some l =>
    ({ hashes := fun k =>
         if k = id then
           (st.hashes k).map (fun h => { h with visitCount := h.visitCount + 1 })
         else st.hashes k,
       visits := fun k =>
         if k = id then st.visits k ++ [⟨now, ua, detectDeviceType ua⟩]
         else st.visits k,
       linksSet := st.linksSet },
     some l.originalUrl)

/-- Comparator of line 91:
`(a, b) => new Date(b.createdAt) - new Date(a.createdAt)`. -/
def byCreatedDesc : Link → Link → Bool := keyedDesc Link.createdAt

/-- Model of the `GET /api/links` handler (lines 74-92).  `enum` is the
order in which `sMembers` returns the members of the `links` set — Redis
documents sets as unordered, so any permutation of the members may arrive.
Each id is looked up; ids whose hash is missing or lacks an `id` field map
to `null` and are removed by `.filter(Boolean)`; the remaining records are
sorted by `createdAt` descending with JavaScript's stable sort. -/
def listLinks (st : Store) (enum : List String) : List Link :=
  stableSort byCreatedDesc (enum.filterMap (readLink st))

/-- The listing as the specification words it: the id set enumerated in
insertion order, so that the stable sort breaks `createdAt` ties by
insertion order.  Stated from the spec for comparison with `listLinks`. -/
def listLinksSpec (st : Store) : List Link := listLinks st st.linksSet

/-! ### Operation sequences for the invariant claims -/

/-- Core mutating operations: a successful `Create` (with its generated id
and creation time) and a redirect's `RecordVisit`. -/
inductive Op where
  | create (id url : String) (now : Int)
  | visit (id ua : String) (now : Int)

/-- Apply one operation to the store. -/
def applyOp (base : String) (st : Store) : Op → Store
  | .create id url now => createLink st id url now base
  | .visit id ua now => (resolveAndRecordVisit st id ua now).1

/-- Run a sequence of operations from the empty store. -/
def applyOps (base : String) (ops : List Op) : Store :=
  ops.foldl (applyOp base) initStore

/-- Validity of an operation sequence from `st`: every `create` uses an
identifier with no existing record, the guarantee the spec assigns to
`shortid.generate()` (generation-time uniqueness, negligible collision
probability). -/
def ValidFrom (base : String) (st : Store) : List Op → Prop
  | [] => True
  | op :: rest =>
    (match op with
     | .create id _ _ => st.hashes id = none
     | .visit _ _ _ => True) ∧ ValidFrom base (applyOp base st op) rest

/-- The C2 invariant: every id's stored counter equals the length of its
visit log, and ids without a link record have an empty log. -/
def CountLogInv (st : Store) : Prop :=
  ∀ id, visitCountOf st id = ((st.visits id).length : Int) ∧
    (st.hashes id = none → st.visits id = [])

/-! ### Store lemmas -/

theorem readLink_eq_some {st : Store} {id : String} {l : Link}
    (h : readLink st id = some l) :
    ∃ hh, st.hashes id = some hh ∧ hh.hid = some l.id ∧
      hh.originalUrl = l.originalUrl ∧ hh.createdAt = l.createdAt ∧
      hh.visitCount = l.visitCount ∧ hh.shortUrl = l.shortUrl := by
  obtain ⟨lid, lurl, lca, lvc, lsu⟩ := l
  cases hst : st.hashes id with
  | none => simp [readLink, hst] at h
  | some hh =>
    cases hhid : hh.hid with
    | none => simp [readLink, hst, hhid] at h
    | some hid =>
      simp only [readLink, hst, hhid, Option.some.injEq, Link.mk.injEq] at h
      obtain ⟨h1, h2, h3, h4, h5⟩ := h
      exact ⟨hh, rfl, by simp [hhid, h1], h2, h3, h4, h5⟩

theorem countLogInv_init : CountLogInv initStore := by
  intro id
  simp [initStore, visitCountOf]

theorem countLogInv_create (st : Store) (id url : String) (now : Int)
    (base : String) (hfresh : st.hashes id = none) (h : CountLogInv st) :
    CountLogInv (createLink st id url now base) := by
  intro j
  by_cases hj : j = id
  · subst hj
    have hvj := (h j).2 hfresh
    constructor
    · simp [createLink, visitCountOf, hvj]
    · intro hnone
      simp [createLink] at hnone
  · constructor
    · simpa [createLink, visitCountOf, hj] using (h j).1
    · intro hnone
      simp [createLink, hj] at hnone
      exact (h j).2 hnone

theorem countLogInv_visit (st : Store) (id ua : String) (now : Int)
    (h : CountLogInv st) :
    CountLogInv ((resolveAndRecordVisit st id ua now).1) := by
  cases hr : readLink st id with
  | none => simpa [resolveAndRecordVisit, hr] using h
  | some l =>
    obtain ⟨hh, hst, -, -, -, -, -⟩ := readLink_eq_some hr
    intro j
    by_cases hj : j = id
    · subst hj
      have h1 := (h j).1
      simp only [visitCountOf, hst] at h1
      constructor
      · simp [resolveAndRecordVisit, hr, visitCountOf, hst]
        omega
      · intro hnone
        simp [resolveAndRecordVisit, hr, hst] at hnone
    · constructor
      · simpa [resolveAndRecordVisit, hr, visitCountOf, hj] using (h j).1
      · intro hnone
        simp [resolveAndRecordVisit, hr, hj] at hnone
        simpa [resolveAndRecordVisit, hr, hj] using (h j).2 hnone

theorem countLogInv_applyOps (base : String) :
    ∀ (ops : List Op) (st : Store), CountLogInv st → ValidFrom base st ops →
      CountLogInv (List.foldl (applyOp base) st ops) := by
  intro ops
  induction ops with
  | nil => intro st h _; simpa using h
  | cons op rest ih =>
    intro st h hv
    rcases hv with ⟨hop, hrest⟩
    cases op with
    | create id url now =>
      exact ih _ (countLogInv_create st id url now base hop h) hrest
    | visit id ua now =>
      exact ih _ (countLogInv_visit st id ua now h) hrest

theorem visit_effects (st : Store) (id ua : String) (now : Int) (l : Link)
    (hr : readLink st id = some l) :
    (resolveAndRecordVisit st id ua now).2 = some l.originalUrl ∧
    (resolveAndRecordVisit st id ua now).1.visits id =
      st.visits id ++ [⟨now, ua, detectDeviceType ua⟩] ∧
    visitCountOf (resolveAndRecordVisit st id ua now).1 id =
      visitCountOf st id + 1 ∧
    (∀ j, j ≠ id →
      (resolveAndRecordVisit st id ua now).1.visits j = st.visits j ∧
      (resolveAndRecordVisit st id ua now).1.hashes j = st.hashes j) ∧
    (resolveAndRecordVisit st id ua now).1.linksSet = st.linksSet := by
  obtain ⟨hh, hst, -, -, -, -, -⟩ := readLink_eq_some hr
  refine ⟨?_, ?_, ?_, ?_, ?_⟩
  · simp [resolveAndRecordVisit, hr]
  · simp [resolveAndRecordVisit, hr]
  · simp [resolveAndRecordVisit, hr, visitCountOf, hst]
  · intro j hj
    constructor <;> simp [resolveAndRecordVisit, hr, hj]
  · simp [resolveAndRecordVisit, hr]

theorem visitCountOf_mono (base : String) (st : Store) (op : Op)
    (hv : ValidFrom base st [op]) (id : String) :
    visitCountOf st id ≤ visitCountOf (applyOp base st op) id := by
  cases op with
  | create cid url now =>
    rcases hv with ⟨hfresh, -⟩
    by_cases hj : id = cid
    · subst hj
      simp [applyOp, createLink, visitCountOf, hfresh]
    · simp [applyOp, createLink, visitCountOf, hj]
  | visit vid ua now =>
    cases hr : readLink st vid with
    | none => simp [applyOp, resolveAndRecordVisit, hr]
    | some l =>
      by_cases hj : id = vid
      · subst hj
        cases hst : st.hashes id with
        | none => simp [applyOp, resolveAndRecordVisit, hr, visitCountOf, hst]
        | some hh =>
          have hred : visitCountOf (applyOp base st (Op.visit id ua now)) id =
              hh.visitCount + 1 := by
            simp [applyOp, resolveAndRecordVisit, hr, visitCountOf, hst]
          rw [hred]
          simp only [visitCountOf, hst]
          omega
      · simp [applyOp, resolveAndRecordVisit, hr, visitCountOf, hj]

/-- Removing an element the lookup maps to `none` does not change a
`filterMap`. -/
theorem filterMap_middle_none {α β : Type} (f : α → Option β) (e1 e2 : List α)
    (a : α) (h : f a = none) :
    List.filterMap f (e1 ++ a :: e2) = List.filterMap f (e1 ++ e2) := by
  rw [List.filterMap_append, List.filterMap_append, List.filterMap_cons, h]

/-! ### The stats parse stage (src/server.js lines 107-115) -/

/-- A JSON value as far as the stats read inspects it.  The entries the
redirect handler writes are visit objects, but a corrupted log may hold any
JSON value; objects other than visit records do not occur in this model. -/
inductive JsonVal where
  | jnull
  | jbool (b : Bool)
  | jnum (n : Int)
  | jstr (s : String)
  | jobj (v : Visit)
deriving DecidableEq, Repr

/-- JavaScript truthiness of a parsed JSON value, as tested by
`.filter(Boolean)` (line 115): `null`, `false`, `0` and `""` are falsy;
objects are always truthy. -/
def truthy : JsonVal → Bool
  | .jnull => false
  | .jbool b => b
  | .jnum n => n != 0
  | .jstr s => s != ""
  | .jobj _ => true

/-- Model of the parse stage of the stats handler (lines 107-115): map
`JSON.parse` over the raw entries with the `try`/`catch` sending a parse
error to `null`, then `.filter(Boolean)`.  `parse` models `JSON.parse`,
`none` standing for a thrown error; the filter keeps exactly the parses
that produced a truthy value. -/
def parsedStage (parse : String → Option JsonVal) (entries : List String) :
    List JsonVal :=
  entries.filterMap (fun e => Option.filter truthy (parse e))

/-! ### Claim C2: log length equals visitCount -/

/-- C2: over every valid sequence of core operations from the empty store,
every link's visit-log length equals its stored `visitCount`, which is a
non-negative integer; a single operation never decreases any counter;
`Create` initialises `visitCount = 0` with an empty log; and a successful
`RecordVisit` appends exactly one log entry and increments the counter by
exactly one. -/
theorem create_record_invariant :
    (∀ (base : String) (ops : List Op), ValidFrom base initStore ops →
      CountLogInv (applyOps base ops) ∧
      ∀ id, 0 ≤ visitCountOf (applyOps base ops) id) ∧
    (∀ (base : String) (st : Store) (op : Op), ValidFrom base st [op] →
      ∀ id, visitCountOf st id ≤ visitCountOf (applyOp base st op) id) ∧
    (∀ (base : String) (st : Store) (id url : String) (now : Int),
      CountLogInv st → st.hashes id = none →
        visitCountOf (applyOp base st (Op.create id url now)) id = 0 ∧
        (applyOp base st (Op.create id url now)).visits id = []) ∧
    (∀ (base : String) (st : Store) (id ua : String) (now : Int) (l : Link),
      readLink st id = some l →
        (applyOp base st (Op.visit id ua now)).visits id =
          st.visits id ++ [⟨now, ua, detectDeviceType ua⟩] ∧
        visitCountOf (applyOp base st (Op.visit id ua now)) id =
          visitCountOf st id + 1) := by
  refine ⟨?_, visitCountOf_mono, ?_, ?_⟩
  · intro base ops hv
    have hinv : CountLogInv (applyOps base ops) :=
      countLogInv_applyOps base ops initStore countLogInv_init hv
    refine ⟨hinv, ?_⟩
    intro id
    have h1 := (hinv id).1
    omega
  · intro base st id url now h hfresh
    constructor
    · simp [applyOp, createLink, visitCountOf]
    · have := (h id).2 hfresh
      simpa [applyOp, createLink] using this
  · intro base st id ua now l hr
    obtain ⟨-, h2, h3, -, -⟩ := visit_effects st id ua now l hr
    exact ⟨h2, h3⟩

/-- The base URL used in the concrete examples. -/
def demoBase : String := "http://localhost:3000"

/-- A concrete valid operation sequence: one create, one redirect visit. -/
def demoOps : List Op :=
  [Op.create "a1" "http://example.com/" 100,
   Op.visit "a1" "Mozilla/5.0 (iPhone)" 200]

theorem create_record_invariant_witness :
    ValidFrom demoBase initStore demoOps ∧
    CountLogInv (applyOps demoBase demoOps) := by
  have hv : ValidFrom demoBase initStore demoOps := ⟨rfl, trivial, trivial⟩
  exact ⟨hv, (create_record_invariant.1 demoBase demoOps hv).1⟩

/-! ### Claim C3: redirect on an existing link -/

/-- C3: for every existing link and every user agent, the redirect handler
returns the link's `originalUrl`, appends exactly one visit — whose
`userAgent` is the given string and whose `deviceType` is its device
classification — and increments that link's `visitCount` by exactly 1. -/
theorem resolveAndRecordVisit_existing :
    ∀ (st : Store) (id ua : String) (now : Int) (l : Link),
      readLink st id = some l →
        (resolveAndRecordVisit st id ua now).2 = some l.originalUrl ∧
        (resolveAndRecordVisit st id ua now).1.visits id =
          st.visits id ++ [⟨now, ua, detectDeviceType ua⟩] ∧
        visitCountOf (resolveAndRecordVisit st id ua now).1 id =
          visitCountOf st id + 1 := by
  intro st id ua now l hr
  obtain ⟨h1, h2, h3, -, -⟩ := visit_effects st id ua now l hr
  exact ⟨h1, h2, h3⟩

/-- The store after `demoOps`'s create: one link `a1`. -/
def demoStore : Store := applyOps demoBase [Op.create "a1" "http://example.com/" 100]

/-- The link record stored for `a1` in `demoStore`. -/
def demoLink : Link :=
  ⟨"a1", "http://example.com/", 100, 0, "http://localhost:3000/a1"⟩

theorem resolveAndRecordVisit_existing_witness :
    readLink demoStore "a1" = some demoLink ∧
    ((resolveAndRecordVisit demoStore "a1" "Mozilla/5.0 (iPhone)" 200).2 =
        some demoLink.originalUrl ∧
      (resolveAndRecordVisit demoStore "a1" "Mozilla/5.0 (iPhone)" 200).1.visits "a1" =
        demoStore.visits "a1" ++
          [⟨200, "Mozilla/5.0 (iPhone)", detectDeviceType "Mozilla/5.0 (iPhone)"⟩] ∧
      visitCountOf (resolveAndRecordVisit demoStore "a1" "Mozilla/5.0 (iPhone)" 200).1 "a1" =
        visitCountOf demoStore "a1" + 1) := by
  have hr : readLink demoStore "a1" = some demoLink := by decide
  exact ⟨hr, resolveAndRecordVisit_existing demoStore "a1" "Mozilla/5.0 (iPhone)" 200 demoLink hr⟩

/-! ### Claim C7: redirect on a missing link -/

/-- C7: for every id with no usable link record and every user agent, the
redirect handler falls through (`next()`, modelled as result `none`) and
performs no side effect at all: the store is returned unchanged, so no visit
is appended and no counter anywhere is touched. -/
theorem resolveAndRecordVisit_missing :
    ∀ (st : Store) (id ua : String) (now : Int),
      readLink st id = none →
        resolveAndRecordVisit st id ua now = (st, none) := by
  intro st id ua now hr
  simp [resolveAndRecordVisit, hr]

theorem resolveAndRecordVisit_missing_witness :
    readLink demoStore "nosuch" = none ∧
    resolveAndRecordVisit demoStore "nosuch" "Mozilla/5.0 (iPhone)" 300 =
      (demoStore, none) :=
  ⟨rfl, resolveAndRecordVisit_missing demoStore "nosuch" "Mozilla/5.0 (iPhone)" 300 rfl⟩

/-! ### Claim C5: invalid URLs are rejected without side effects -/

/-- C5: for every input whose parse fails or parses with a protocol other
than `http:`/`https:`, the create handler answers a 400 client error (the
same failure shape for both cases) and returns the store unchanged — no
side effect happens before the failure. -/
theorem create_invalid_url_rejected :
    ∀ (parseUrl : String → Option ParsedUrl) (st : Store) (url id : String)
      (now : Int) (base : String),
      (parseUrl url = none ∨
        ∃ p, parseUrl url = some p ∧ p.protocol ≠ "http:" ∧
          p.protocol ≠ "https:") →
      ∃ msg, postLinks parseUrl st url id now base =
        (st, CreateResult.clientError msg) := by
  intro parseUrl st url id now base h
  rcases h with h | ⟨p, hp, h1, h2⟩
  · exact ⟨"Invalid URL provided.", by simp [postLinks, h]⟩
  · exact ⟨"Only http(s) URLs are allowed.", by simp [postLinks, hp, h1, h2]⟩

/-- A model URL parser for the concrete examples: an `ftp` URL, a valid
`http` URL, everything else unparsable. -/
def demoParseUrl : String → Option ParsedUrl := fun s =>
  if s = "ftp://example.com/x" then some ⟨"ftp:"⟩
  else if s = "http://example.com/" then some ⟨"http:"⟩
  else none

theorem create_invalid_url_rejected_witness :
    (demoParseUrl "no scheme at all" = none ∨
      ∃ p, demoParseUrl "no scheme at all" = some p ∧ p.protocol ≠ "http:" ∧
        p.protocol ≠ "https:") ∧
    (∃ msg, postLinks demoParseUrl initStore "no scheme at all" "a1" 100 demoBase =
      (initStore, CreateResult.clientError msg)) ∧
    (demoParseUrl "ftp://example.com/x" = none ∨
      ∃ p, demoParseUrl "ftp://example.com/x" = some p ∧ p.protocol ≠ "http:" ∧
        p.protocol ≠ "https:") ∧
    ∃ msg, postLinks demoParseUrl initStore "ftp://example.com/x" "a1" 100 demoBase =
      (initStore, CreateResult.clientError msg) := by
  have hbad1 : demoParseUrl "no scheme at all" = none ∨
      ∃ p, demoParseUrl "no scheme at all" = some p ∧ p.protocol ≠ "http:" ∧
        p.protocol ≠ "https:" := Or.inl rfl
  have hbad2 : demoParseUrl "ftp://example.com/x" = none ∨
      ∃ p, demoParseUrl "ftp://example.com/x" = some p ∧ p.protocol ≠ "http:" ∧
        p.protocol ≠ "https:" := Or.inr ⟨⟨"ftp:"⟩, rfl, by decide, by decide⟩
  exact ⟨hbad1,
    create_invalid_url_rejected demoParseUrl initStore "no scheme at all" "a1" 100 demoBase hbad1,
    hbad2,
    create_invalid_url_rejected demoParseUrl initStore "ftp://example.com/x" "a1" 100 demoBase hbad2⟩

/-! ### Claim C10: dangling index entries are skipped -/

/-- C10: an identifier in the enumeration of the `links` set whose per-link
hash is missing or lacks an `id` field is silently omitted: the listing is
the same as if the identifier were not enumerated at all, and the remaining
links are returned as a successful result. -/
theorem listLinks_skips_dangling :
    ∀ (st : Store) (e1 e2 : List String) (i : String),
      readLink st i = none →
        listLinks st (e1 ++ i :: e2) = listLinks st (e1 ++ e2) := by
  intro st e1 e2 i h
  unfold listLinks
  rw [filterMap_middle_none (readLink st) e1 e2 i h]

/-- A store whose `links` set holds a live id, an id with no hash at all,
and an id whose hash lacks the `id` field. -/
def danglingStore : Store :=
  { hashes := fun k =>
      if k = "a1" then
        some ⟨some "a1", "http://example.com/", 100, 0, "http://localhost:3000/a1"⟩
      else if k = "broken" then some ⟨none, "", 0, 0, ""⟩
      else none,
    visits := fun _ => [],
    linksSet := ["a1", "ghost", "broken"] }

theorem listLinks_skips_dangling_witness :
    readLink danglingStore "ghost" = none ∧
    readLink danglingStore "broken" = none ∧
    listLinks danglingStore (["a1"] ++ "ghost" :: ["broken"]) =
      listLinks danglingStore (["a1"] ++ ["broken"]) :=
  ⟨rfl, rfl, listLinks_skips_dangling danglingStore ["a1"] ["broken"] "ghost" rfl⟩

/-! ### Claim C4: listing order

The listing is sorted by `createdAt` descending and the JavaScript sort is
stable, so ties keep the order in which `sMembers` enumerated the `links`
set.  Redis documents sets as unordered, so that enumeration order is not
guaranteed to be insertion order: the spec's tie-breaking claim fails for an
enumeration that permutes two links created at the same instant. -/

/-- Two links created at the same instant (`createdAt = 500` for both),
`a1` inserted before `b2`. -/
def tieStore : Store :=
  applyOps demoBase
    [Op.create "a1" "http://a.example/" 500, Op.create "b2" "http://b.example/" 500]

/-- C4 counterexample: the enumeration `["b2", "a1"]` is a permutation of
the `links` set `["a1", "b2"]`, yet the listing it produces differs from the
insertion-order listing `listLinksSpec` — the stable sort keeps the
`createdAt` tie in enumeration order, not insertion order. -/
theorem listLinks_insertion_tie_cex :
    (["b2", "a1"] : List String).Perm tieStore.linksSet ∧
    listLinks tieStore ["b2", "a1"] ≠ listLinksSpec tieStore := by
  constructor
  · decide
  · decide

/-- C4 amended: for every store and every enumeration of the id set, the
listing contains exactly the readable links of the enumeration, is sorted by
`createdAt` descending, and breaks `createdAt` ties by the enumeration order
(the sort is stable) — which need not be insertion order; on an empty store
the listing is the empty sequence, never an error. -/
theorem listLinks_sorted_stable :
    ∀ (st : Store) (enum : List String), enum.Perm st.linksSet →
      (listLinks st enum).Perm (enum.filterMap (readLink st)) ∧
      List.Pairwise (fun a b => byCreatedDesc a b = true) (listLinks st enum) ∧
      (∀ t, (listLinks st enum).filter (fun l => l.createdAt == t) =
        (enum.filterMap (readLink st)).filter (fun l => l.createdAt == t)) ∧
      (st.linksSet = [] → listLinks st enum = []) := by
  intro st enum hperm
  refine ⟨stableSort_perm _ _, ?_, ?_, ?_⟩
  · exact stableSort_pairwise byCreatedDesc (keyedDesc_total Link.createdAt)
      (keyedDesc_trans Link.createdAt) (enum.filterMap (readLink st))
  · intro t
    exact stableSort_filter_key Link.createdAt t (enum.filterMap (readLink st))
  · intro hnil
    rw [hnil] at hperm
    rw [hperm.eq_nil]
    rfl

theorem listLinks_sorted_stable_witness :
    (["b2", "a1"] : List String).Perm tieStore.linksSet ∧
    List.Pairwise (fun a b => byCreatedDesc a b = true)
      (listLinks tieStore ["b2", "a1"]) :=
  ⟨by decide, (listLinks_sorted_stable tieStore ["b2", "a1"] (by decide)).2.1⟩

/-! ### Claim C8: corrupt entries are skipped individually -/

/-- C8: an entry `JSON.parse` throws on is skipped individually — the parse
stage of a stats read gives the same result as if the entry were absent —
and when every entry parses to a truthy (well-formed) value the stage
returns all of them; being a total function, the stage never fails. -/
theorem parsedStage_skips_bad :
    (∀ (parse : String → Option JsonVal) (e1 e2 : List String) (bad : String),
      parse bad = none →
        parsedStage parse (e1 ++ bad :: e2) = parsedStage parse (e1 ++ e2)) ∧
    (∀ (parse : String → Option JsonVal) (entries : List String),
      (∀ e ∈ entries, ∃ v, parse e = some v ∧ truthy v = true) →
        parsedStage parse entries = entries.filterMap parse) := by
  constructor
  · intro parse e1 e2 bad h
    unfold parsedStage
    exact filterMap_middle_none _ e1 e2 bad (by simp [h])
  · intro parse entries h
    induction entries with
    | nil => rfl
    | cons e es ih =>
      obtain ⟨v, hv, htr⟩ := h e (by simp)
      have ih' := ih (fun x hx => h x (by simp [hx]))
      simp [parsedStage, List.filterMap_cons, hv, Option.filter, htr] at ih' ⊢
      exact ih'

/-- A model `JSON.parse` for the concrete examples: two well-formed visit
entries, the JSON literals `null` and `0`, everything else a parse error. -/
def demoJsonParse : String → Option JsonVal := fun s =>
  if s = "v1" then some (JsonVal.jobj exVisit1)
  else if s = "v2" then some (JsonVal.jobj exVisit2)
  else if s = "null" then some JsonVal.jnull
  else if s = "zero" then some (JsonVal.jnum 0)
  else none

theorem parsedStage_skips_bad_witness :
    demoJsonParse "corrupt-entry" = none ∧
    parsedStage demoJsonParse (["v1"] ++ "corrupt-entry" :: ["v2"]) =
      parsedStage demoJsonParse (["v1"] ++ ["v2"]) :=
  ⟨rfl, parsedStage_skips_bad.1 demoJsonParse ["v1"] ["v2"] "corrupt-entry" rfl⟩

/-! ### Claim C9: falsy JSON values are dropped like corrupt ones -/

/-- C9: an entry that parses to a falsy JSON value — `null`, `false`, `0` or
`""` — is silently dropped by the `.filter(Boolean)` stage exactly like an
entry `JSON.parse` throws on: the stage gives the same result as if the
entry were absent. -/
theorem parsedStage_drops_falsy :
    (∀ (parse : String → Option JsonVal) (e1 e2 : List String) (e : String)
        (v : JsonVal), parse e = some v → truthy v = false →
      parsedStage parse (e1 ++ e :: e2) = parsedStage parse (e1 ++ e2)) ∧
    truthy JsonVal.jnull = false ∧
    truthy (JsonVal.jbool false) = false ∧
    truthy (JsonVal.jnum 0) = false ∧
    truthy (JsonVal.jstr "") = false := by
  refine ⟨?_, rfl, rfl, by decide, by decide⟩
  intro parse e1 e2 e v hv htr
  unfold parsedStage
  exact filterMap_middle_none _ e1 e2 e (by simp [hv, Option.filter, htr])

theorem parsedStage_drops_falsy_witness :
    demoJsonParse "null" = some JsonVal.jnull ∧
    truthy JsonVal.jnull = false ∧
    parsedStage demoJsonParse (["v1"] ++ "null" :: ["v2"]) =
      parsedStage demoJsonParse (["v1"] ++ ["v2"]) :=
  ⟨rfl, rfl,
    parsedStage_drops_falsy.1 demoJsonParse ["v1"] ["v2"] "null" JsonVal.jnull rfl rfl⟩

end URLTracker
